import Mathlib

/-!
Verification of the configuration-resolution and unit-conversion core of the
hyperliquid-withdraw-tools repository (hype_cli.py, unstake_hype.py,
vault_withdraw.py).  Python string values are modelled at the character
level (a Python str is a sequence of characters); Python Decimal values are
modelled as sign/coefficient/exponent triples with the default context
precision of 28 significant digits and ROUND_HALF_EVEN; Python float values
that only flow through comparisons and resolution are modelled as exact
rationals (binary-double rounding is not modelled, and the special values
inf and nan as well as underscore digit separators are outside the modelled
grammar).
-/

namespace HypeTools

/-- Decidable equality for Except outcomes, used to evaluate the models on
concrete inputs. -/
instance {ε α : Type} [DecidableEq ε] [DecidableEq α] :
    DecidableEq (Except ε α) := fun x y =>
  match x, y with
  | .error e, .error f =>
    if h : e = f then .isTrue (by rw [h]) else .isFalse (by simp [h])
  | .ok a, .ok b =>
    if h : a = b then .isTrue (by rw [h]) else .isFalse (by simp [h])
  | .error _, .ok _ => .isFalse (by simp)
  | .ok _, .error _ => .isFalse (by simp)

/-! ## Python Decimal model (decimal.Decimal, default context) -/

/-- Model of a finite Python Decimal value: sign, coefficient, exponent.
The numeric value is (-1)^neg * coeff * 10^exp. -/
structure PyDec where
  neg : Bool
  coeff : Nat
  exp : Int
deriving DecidableEq, Repr

/-- Fuel-driven digit counter, so that the kernel can evaluate it. -/
def numDigitsFuel : Nat → Nat → Nat
  | 0, _ => 1
  | fuel + 1, n => if n < 10 then 1 else numDigitsFuel fuel (n / 10) + 1

/-- Number of decimal digits of a natural number (1 for 0). -/
def numDigits (n : Nat) : Nat := numDigitsFuel n n

/-- Parse an optional leading sign, as in the Python numeric grammars. -/
def parseSign : List Char → Bool × List Char
  | '-' :: rest => (true, rest)
  | '+' :: rest => (false, rest)
  | cs => (false, cs)

/-- Value of a list of decimal digit characters read left to right. -/
def digitsToNat (ds : List Char) : Nat :=
  ds.foldl (fun a c => a * 10 + (c.toNat - 48)) 0

/-- Parser for the finite-number grammar shared by Python Decimal(s) and
float(s): an optional sign, an integer part and/or a fractional part, and
an optional decimal exponent.  Returns none exactly when Python raises on
the input (for inputs inside the modelled grammar). -/
def parseDecimalChars (cs : List Char) : Option PyDec :=
  let (neg, cs1) := parseSign cs
  let (intDs, cs2) := cs1.span Char.isDigit
  let (fracDs, cs3) :=
    match cs2 with
    | '.' :: rest => rest.span Char.isDigit
    | _ => (([] : List Char), cs2)
  if intDs.isEmpty && fracDs.isEmpty then none
  else
    match cs3 with
    | [] =>
      some { neg := neg, coeff := digitsToNat (intDs ++ fracDs),
             exp := -(fracDs.length : Int) }
    | e :: rest =>
      if e = 'e' ∨ e = 'E' then
        let (eneg, rest1) := parseSign rest
        let (eDs, rest2) := rest1.span Char.isDigit
        if eDs.isEmpty || !rest2.isEmpty then none
        else
          let ev : Int :=
            if eneg then -(digitsToNat eDs : Int) else (digitsToNat eDs : Int)
          some { neg := neg, coeff := digitsToNat (intDs ++ fracDs),
                 exp := ev - (fracDs.length : Int) }
      else none

/-- Rounding of a coefficient/exponent pair to the default Python Decimal
context precision of 28 significant digits, with ROUND_HALF_EVEN.  Pairs
that already fit are returned unchanged. -/
def decContextRound (c : Nat) (e : Int) : Nat × Int :=
  if numDigits c ≤ 28 then (c, e)
  else
    let k := numDigits c - 28
    let p := 10 ^ k
    let q := c / p
    let r := c % p
    let q2 :=
      if p < 2 * r then q + 1
      else if 2 * r < p then q
      else if q % 2 = 1 then q + 1 else q
    (q2, e + (k : Int))

/-- Python Decimal multiplication under the default context: the exact
product, rounded to 28 significant digits. -/
def decMul (a b : PyDec) : PyDec :=
  let ce := decContextRound (a.coeff * b.coeff) (a.exp + b.exp)
  { neg := xor a.neg b.neg, coeff := ce.1, exp := ce.2 }

/-- Model of Python int(d) on a finite Decimal: truncation toward zero. -/
def PyDec.toIntTrunc (d : PyDec) : Int :=
  let mag : Nat :=
    if 0 ≤ d.exp then d.coeff * 10 ^ d.exp.toNat
    else d.coeff / 10 ^ (-d.exp).toNat
  if d.neg then -(mag : Int) else (mag : Int)

/-- Exact rational value of a PyDec, built from integer arithmetic so that
the kernel can evaluate it. -/
def ratOfPyDec (d : PyDec) : ℚ :=
  let n : Int := if d.neg then -(d.coeff : Int) else (d.coeff : Int)
  if 0 ≤ d.exp then mkRat (n * 10 ^ d.exp.toNat) 1
  else mkRat n (10 ^ (-d.exp).toNat)

/-! ## hype_to_wei (hype_cli.py lines 121-130, unstake_hype.py lines 37-46) -/

/-- Error outcomes of hype_to_wei: a Decimal parse failure, or the
wei-is-not-positive ValueError raised by the function body. -/
inductive HypeErr where
  | invalidDecimal
  | nonPositive
deriving DecidableEq, Repr

/-- HYPE_WEI_FACTOR = 10 ** 8 as the Decimal operand it is coerced to. -/
def HYPE_WEI_FACTOR_DEC : PyDec := { neg := false, coeff := 100000000, exp := 0 }

/-- Model of hype_to_wei: dec = Decimal(amount_hype); wei = int(dec *
HYPE_WEI_FACTOR); raise if wei <= 0; return wei. -/
def hype_to_wei (s : String) : Except HypeErr Int :=
  match parseDecimalChars s.data with
  | none => .error .invalidDecimal
  | some d =>
    let wei := (decMul d HYPE_WEI_FACTOR_DEC).toIntTrunc
    if wei ≤ 0 then .error .nonPositive else .ok wei

/-- Rounding half-to-even of the fraction n / p to a natural number. -/
def roundHalfEvenNat (n p : Nat) : Nat :=
  let q := n / p
  let r := n % p
  if p < 2 * r then q + 1
  else if 2 * r < p then q
  else if q % 2 = 1 then q + 1 else q

/-- Modelled from the spec: the value round(Decimal(d) * 10^8) with exact
decimal arithmetic and round-half-even, the quantity the specification says
hype_to_wei returns. -/
def specScaledRound (s : String) : Option Int :=
  (parseDecimalChars s.data).map fun d =>
    let e8 := d.exp + 8
    let mag : Nat :=
      if 0 ≤ e8 then d.coeff * 10 ^ e8.toNat
      else roundHalfEvenNat d.coeff (10 ^ (-e8).toNat)
    if d.neg then -(mag : Int) else (mag : Int)

/-- Truncation toward zero of a rational number. -/
def ratTruncZ (q : ℚ) : Int := if 0 ≤ q then ⌊q⌋ else -⌊-q⌋

/-- Integer-level truncation toward zero of the exact product
value(d) * 10^8, with no context rounding. -/
def specScaledTrunc (d : PyDec) : Int :=
  let e8 := d.exp + 8
  let mag : Nat :=
    if 0 ≤ e8 then d.coeff * 10 ^ e8.toNat
    else d.coeff / 10 ^ (-e8).toNat
  if d.neg then -(mag : Int) else (mag : Int)

/-! ## Python str helpers, modelled at the character level -/

/-- The ASCII whitespace characters removed by str.strip on the inputs the
tools see (wider Unicode whitespace is outside the model). -/
def pyIsSpace (c : Char) : Bool :=
  c = ' ' ∨ c = '\t' ∨ c = '\n' ∨ c = '\r' ∨ c = '\x0b' ∨ c = '\x0c'

/-- Model of str.strip(): drop whitespace from both ends. -/
def pyStripChars (cs : List Char) : List Char :=
  ((cs.dropWhile pyIsSpace).reverse.dropWhile pyIsSpace).reverse

/-- Model of str.strip() on a String value. -/
def pyStrip (s : String) : String := ⟨pyStripChars s.data⟩

/-- ASCII lowercasing of one character (str.lower restricted to the ASCII
range the recognized tokens live in). -/
def pyLowerChar (c : Char) : Char :=
  if 'A' ≤ c ∧ c ≤ 'Z' then Char.ofNat (c.toNat + 32) else c

/-- Model of str.lower(). -/
def pyLower (s : String) : String := ⟨s.data.map pyLowerChar⟩

/-- Model of str.startswith(prefixStr) over character sequences. -/
def pyStartswith (s p : String) : Bool := p.data.isPrefixOf s.data

/-- Model of len(s) over character sequences. -/
def pyLen (s : String) : Nat := s.data.length

/-! ## Address shape check
(hype_cli.py lines 224 and 359, vault_withdraw.py line 186):
startswith 0x and total length 42. -/

/-- The address test the three call sites perform on a candidate string. -/
def isValidAddress (s : String) : Bool :=
  pyStartswith s "0x" && pyLen s == 42

/-- Hexadecimal digit test, 0-9 a-f A-F. -/
def isHexChar (c : Char) : Bool :=
  c.isDigit ∨ ('a' ≤ c ∧ c ≤ 'f') ∨ ('A' ≤ c ∧ c ≤ 'F')

/-- Modelled from the spec: an address-shaped string is 0x followed by 40
hexadecimal characters. -/
def matchesHexAddress (s : String) : Bool :=
  isValidAddress s && (s.data.drop 2).all isHexChar

/-! ## vault_withdraw.py configuration resolution -/

/-- Model of str_to_bool (vault_withdraw.py lines 74-82): None gives the
default; otherwise the stripped, lowercased string is compared against the
recognized encodings, anything else giving the default. -/
def str_to_bool (value : Option String) (default : Bool) : Bool :=
  match value with
  | none => default
  | some s =>
    let v := pyLower (pyStrip s)
    if v = "1" ∨ v = "true" ∨ v = "yes" ∨ v = "y" then true
    else if v = "0" ∨ v = "false" ∨ v = "no" ∨ v = "n" then false
    else default

/-- Model of first_non_none (vault_withdraw.py lines 85-89) at the arity
every call site uses: return the first value that is not None. -/
def first_non_none3 {α : Type} (a b c : Option α) : Option α :=
  match a with
  | some v => some v
  | none =>
    match b with
    | some v => some v
    | none => c

/-- The terminal failures of vault_withdraw.py main before any signing:
the RuntimeError raised for each missing required field, the RuntimeError
for a malformed vault address, the RuntimeError for a non-positive amount,
and the ValueError raised by float() on a malformed environment amount. -/
inductive VWError where
  | missingPrivateKey
  | missingVaultAddress
  | invalidVaultAddress
  | missingAmount
  | nonPositiveAmount
  | valueError
deriving DecidableEq, Repr

/-- Whether an error is one of the missing-required-field conditions. -/
def VWError.isMissingField : VWError → Bool
  | .missingPrivateKey => true
  | .missingVaultAddress => true
  | .missingAmount => true
  | _ => false

/-- Model of the private-key resolution (vault_withdraw.py lines 163-172):
first_non_none over flag, environment, config, then a falsy check that
rejects both absence and the empty string. -/
def resolvePrivateKeyV (a e c : Option String) : Except VWError String :=
  match first_non_none3 a e c with
  | none => .error .missingPrivateKey
  | some pk => if pk = "" then .error .missingPrivateKey else .ok pk

/-- Model of the vault-address resolution (vault_withdraw.py lines
175-187): first_non_none, falsy check, then the 42-character 0x shape
check. -/
def resolveVaultAddressV (a e c : Option String) : Except VWError String :=
  match first_non_none3 a e c with
  | none => .error .missingVaultAddress
  | some va =>
    if va = "" then .error .missingVaultAddress
    else if !(isValidAddress va) then .error .invalidVaultAddress
    else .ok va

/-- Model of Python float(s) on finite decimal literals: the surrounding
whitespace float() tolerates is stripped and the exact rational value of
the literal is returned; none models the ValueError on malformed input. -/
def pyFloat (s : String) : Option ℚ :=
  (parseDecimalChars (pyStripChars s.data)).map ratOfPyDec

/-- Model of the amount resolution (vault_withdraw.py lines 190-206): the
environment string is parsed by float() eagerly (raising on malformed
input even when the flag value is present), then first_non_none, an
is-None check, and the positivity check. -/
def resolveAmountUsdV (a : Option ℚ) (e : Option String) (c : Option ℚ) :
    Except VWError ℚ :=
  match e with
  | some s =>
    match pyFloat s with
    | none => .error .valueError
    | some ef =>
      match first_non_none3 a (some ef) c with
      | none => .error .missingAmount
      | some amt =>
        if amt ≤ 0 then .error .nonPositiveAmount else .ok amt
  | none =>
    match first_non_none3 a none c with
    | none => .error .missingAmount
    | some amt =>
      if amt ≤ 0 then .error .nonPositiveAmount else .ok amt

/-- Model of the is_mainnet resolution (vault_withdraw.py lines 209-215):
the testnet flag forces false, otherwise str_to_bool of the environment
value with the config value (default true) as fallback. -/
def resolveIsMainnet (testnet : Bool) (envIM : Option String)
    (cfgIM : Option Bool) : Bool :=
  if testnet then false else str_to_bool envIM (cfgIM.getD true)

/-- Model of the is_deposit resolution (vault_withdraw.py lines 220-230):
the deposit flag forces true, the withdraw flag forces false, otherwise
str_to_bool of the environment value with the config value (default false)
as fallback. -/
def resolveIsDeposit (deposit withdraw : Bool) (envID : Option String)
    (cfgID : Option Bool) : Bool :=
  if deposit then true
  else if withdraw then false
  else str_to_bool envID (cfgID.getD false)

/-- The inputs vault_withdraw.py main reads before resolving: parsed
command-line flags, the relevant environment variables, and the values of
the optional config.json keys (config amounts are JSON numbers, modelled
as exact rationals). -/
structure VaultCliInputs where
  argPrivateKey : Option String
  argVaultAddress : Option String
  argAmountUsd : Option ℚ
  argDeposit : Bool
  argWithdraw : Bool
  argTestnet : Bool
  envPrivateKey : Option String
  envVaultAddress : Option String
  envAmountUsd : Option String
  envIsDeposit : Option String
  envIsMainnet : Option String
  cfgPrivateKey : Option String
  cfgVaultAddress : Option String
  cfgAmountUsd : Option ℚ
  cfgIsMainnet : Option Bool
  cfgIsDeposit : Option Bool
deriving DecidableEq, Repr

/-- The effective configuration main has assembled when it reaches the
signing step. -/
structure ResolvedVaultConfig where
  private_key : String
  vault_address : String
  amount_usd : ℚ
  is_mainnet : Bool
  is_deposit : Bool
deriving DecidableEq, Repr

/-- Model of the resolution phase of vault_withdraw.py main (lines
157-230), in source order: private key, vault address, amount, network
flag, direction flag.  The first failure is terminal. -/
def resolveVaultConfig (i : VaultCliInputs) :
    Except VWError ResolvedVaultConfig := do
  let pk ← resolvePrivateKeyV i.argPrivateKey i.envPrivateKey i.cfgPrivateKey
  let va ← resolveVaultAddressV i.argVaultAddress i.envVaultAddress
    i.cfgVaultAddress
  let amt ← resolveAmountUsdV i.argAmountUsd i.envAmountUsd i.cfgAmountUsd
  let im := resolveIsMainnet i.argTestnet i.envIsMainnet i.cfgIsMainnet
  let idp := resolveIsDeposit i.argDeposit i.argWithdraw i.envIsDeposit
    i.cfgIsDeposit
  pure { private_key := pk, vault_address := va, amount_usd := amt,
         is_mainnet := im, is_deposit := idp }

/-! ## Calls to the external signing and exchange collaborator -/

/-- The externally visible collaborator calls the tools can make. -/
inductive ExtCall where
  | tokenDelegate (validator : String) (wei : Int)
  | signL1Vault (vault : String) (isDeposit : Bool) (usd : ℚ)
      (isMainnet : Bool)
  | postVaultTransfer (vault : String) (isDeposit : Bool) (usd : ℚ)
  | queryStakingSummary (address : String)
  | queryStakingRewards (address : String)
deriving DecidableEq, Repr

/-- Whether a call submits a state-changing transaction to the exchange. -/
def isSubmissionCall : ExtCall → Bool
  | .tokenDelegate _ _ => true
  | .postVaultTransfer _ _ _ => true
  | _ => false

/-- Number of state-changing submissions in a trace. -/
def submissionCount (t : List ExtCall) : Nat := t.countP isSubmissionCall

/-- Full run of vault_withdraw.py main: a resolution failure makes no
call; a resolved configuration is signed once and posted once. -/
def vaultWithdrawCalls (i : VaultCliInputs) : List ExtCall :=
  match resolveVaultConfig i with
  | .error _ => []
  | .ok r =>
    [.signL1Vault r.vault_address r.is_deposit r.amount_usd r.is_mainnet,
     .postVaultTransfer r.vault_address r.is_deposit r.amount_usd]

/-! ## hype_cli.py interactive actions as traces of collaborator calls -/

/-- Model of action_unstake (hype_cli.py lines 212-268): validate the
stripped validator address, convert the stripped amount, ask for
confirmation, and only then call token_delegate once.  Every early return
makes no call. -/
def action_unstake (validatorInput amountInput : String) (confirm : Bool) :
    List ExtCall :=
  let validator := pyStrip validatorInput
  if !(isValidAddress validator) then []
  else
    match hype_to_wei (pyStrip amountInput) with
    | .error _ => []
    | .ok wei =>
      if !confirm then []
      else [.tokenDelegate validator wei]

/-- Model of action_vault_transfer (hype_cli.py lines 348-431): validate
the stripped vault address, read the direction choice (1 means deposit,
anything else withdraw), parse the stripped amount with float(), require
positivity, ask for confirmation, and only then sign once and post once
(mainnet only). -/
def action_vault_transfer (vaultInput directionInput amountInput : String)
    (confirm : Bool) : List ExtCall :=
  let vault := pyStrip vaultInput
  if !(isValidAddress vault) then []
  else
    let is_deposit := pyStrip directionInput = "1"
    match pyFloat (pyStrip amountInput) with
    | none => []
    | some amt =>
      if amt ≤ 0 then []
      else if !confirm then []
      else
        [.signL1Vault vault is_deposit amt true,
         .postVaultTransfer vault is_deposit amt]

/-- Model of show_staking_overview (hype_cli.py lines 161-205) together
with fetch_staking_data: the staking summary and the rewards are queried
unconditionally, with no confirmation step. -/
def show_staking_overview (address : String) : List ExtCall :=
  [.queryStakingSummary address, .queryStakingRewards address]

/-! ## The .env upsert of action_prepare_withdraw_env
(hype_cli.py lines 298-326) -/

/-- The first recognized key prefix, PRIVATE_KEY= as characters. -/
def PK_KEY : List Char := ['P', 'R', 'I', 'V', 'A', 'T', 'E', '_', 'K', 'E', 'Y', '=']

/-- The second recognized key prefix, AMOUNT_HYPE_TO_WITHDRAW= as
characters. -/
def AMT_KEY : List Char :=
  ['A', 'M', 'O', 'U', 'N', 'T', '_', 'H', 'Y', 'P', 'E', '_', 'T', 'O',
   '_', 'W', 'I', 'T', 'H', 'D', 'R', 'A', 'W', '=']

/-- A KEY=VALUE line with its trailing newline, as written by the tool. -/
def envLine (key v : List Char) : List Char := key ++ v ++ ['\n']

/-- Replacement step of the upsert loop body: a line starting with
PRIVATE_KEY= becomes the new private-key line, else a line starting with
AMOUNT_HYPE_TO_WITHDRAW= becomes the new amount line, else the line is
kept verbatim. -/
def replaceLine (pkLine amtLine l : List Char) : List Char :=
  if PK_KEY.isPrefixOf l then pkLine
  else if AMT_KEY.isPrefixOf l then amtLine
  else l

/-- Model of the upsert loop of action_prepare_withdraw_env: each line is
rewritten in place, the seen flags record whether each key occurred, and
an unseen key is appended at the end (private key first, then amount). -/
def upsertEnvLines (pkLine amtLine : List Char) (ls : List (List Char)) :
    List (List Char) :=
  ls.map (replaceLine pkLine amtLine)
    ++ (if ls.any (fun l => PK_KEY.isPrefixOf l) then [] else [pkLine])
    ++ (if ls.any (fun l => AMT_KEY.isPrefixOf l) then [] else [amtLine])

/-- Model of Python readlines(): split a text into lines, each line
keeping its terminating newline; a final fragment without a newline is a
line of its own. -/
def pyReadlines : List Char → List (List Char)
  | [] => []
  | c :: rest =>
    if c = '\n' then ['\n'] :: pyReadlines rest
    else
      match pyReadlines rest with
      | [] => [[c]]
      | l :: ls => (c :: l) :: ls

/-- Model of one run of the .env write: read the existing content as
lines, upsert the two recognized keys, and write the lines back
(writelines concatenates them verbatim). -/
def prepareEnvContent (content pkVal amtVal : List Char) : List Char :=
  (upsertEnvLines (envLine PK_KEY pkVal) (envLine AMT_KEY amtVal)
    (pyReadlines content)).flatten

/-! ## Arithmetic facts about the Decimal model -/

theorem numDigitsFuel_le (fuel : Nat) :
    ∀ n k, n ≤ fuel → 1 ≤ k → n < 10 ^ k → numDigitsFuel fuel n ≤ k := by
  induction fuel with
  | zero =>
    intro n k _ hk _
    simpa [numDigitsFuel] using hk
  | succ f ih =>
    intro n k hn hk hpow
    rw [numDigitsFuel]
    split
    · exact hk
    · rename_i h10
      push_neg at h10
      have hk2 : 2 ≤ k := by
        rcases Nat.lt_or_ge k 2 with h | h
        · interval_cases k
          · omega
        · exact h
      have hnpos : 0 < n := by omega
      have hfuel2 : n / 10 ≤ f := by
        have := Nat.div_lt_self hnpos (by norm_num : 1 < 10)
        omega
      have hsplit : 10 ^ k = 10 ^ (k - 1) * 10 := by
        conv_lhs => rw [show k = (k - 1) + 1 by omega]
        rw [pow_succ]
      have hdivpow : n / 10 < 10 ^ (k - 1) := by
        rw [Nat.div_lt_iff_lt_mul (by norm_num : 0 < 10)]
        omega
      have := ih (n / 10) (k - 1) hfuel2 (by omega) hdivpow
      omega

theorem numDigits_le_of_lt_pow {n k : Nat} (hk : 1 ≤ k) (h : n < 10 ^ k) :
    numDigits n ≤ k :=
  numDigitsFuel_le n n k le_rfl hk h

theorem decContextRound_of_small {c : Nat} (e : Int) (h : numDigits c ≤ 28) :
    decContextRound c e = (c, e) := by
  simp [decContextRound, h]

theorem decMul_wei_factor {d : PyDec} (h : d.coeff < 10 ^ 20) :
    decMul d HYPE_WEI_FACTOR_DEC =
      { neg := d.neg, coeff := d.coeff * 100000000, exp := d.exp } := by
  have hlt : d.coeff * 100000000 < 10 ^ 28 := by
    have h28 : (10 : Nat) ^ 28 = 10 ^ 20 * 100000000 := by norm_num
    rw [h28]
    exact (Nat.mul_lt_mul_right (by norm_num : 0 < 100000000)).mpr h
  have hd : numDigits (d.coeff * 100000000) ≤ 28 :=
    numDigits_le_of_lt_pow (by norm_num) hlt
  simp [decMul, HYPE_WEI_FACTOR_DEC, decContextRound_of_small _ hd]

theorem ratTruncZ_intCast (m : Int) : ratTruncZ ((m : Int) : ℚ) = m := by
  rw [ratTruncZ]
  split
  · exact Int.floor_intCast m
  · rw [show (-(m : ℚ)) = (((-m : Int) : Int) : ℚ) by push_cast; ring,
      Int.floor_intCast]
    omega

theorem ratTruncZ_natCast_div (c p : Nat) :
    ratTruncZ ((c : ℚ) / (p : ℚ)) = ((c / p : Nat) : Int) := by
  have hnn : (0 : ℚ) ≤ (c : ℚ) / (p : ℚ) := by positivity
  rw [ratTruncZ, if_pos hnn]
  rw [show ((c : ℚ) / (p : ℚ)) = (((c : Int) : ℚ) / ((p : Nat) : ℚ)) by
    push_cast; ring]
  rw [Rat.floor_intCast_div_natCast]
  exact (Int.natCast_div c p).symm

theorem ratTruncZ_neg_natCast_div (c p : Nat) :
    ratTruncZ (-((c : ℚ) / (p : ℚ))) = -((c / p : Nat) : Int) := by
  rcases Nat.eq_zero_or_pos c with hc | hc
  · subst hc
    simp [ratTruncZ]
  rcases Nat.eq_zero_or_pos p with hp | hp
  · subst hp
    simp [ratTruncZ]
  have hpos : (0 : ℚ) < (c : ℚ) / (p : ℚ) := by positivity
  have hneg : ¬ (0 : ℚ) ≤ -((c : ℚ) / (p : ℚ)) := by
    rw [not_le]
    linarith
  rw [ratTruncZ, if_neg hneg, neg_neg]
  have h := ratTruncZ_natCast_div c p
  rw [ratTruncZ, if_pos (le_of_lt hpos)] at h
  rw [h]

theorem ratOfPyDec_of_nonneg_exp {d : PyDec} (he : 0 ≤ d.exp) :
    ratOfPyDec d =
      (((if d.neg = true then -(d.coeff : Int) else (d.coeff : Int)) *
        10 ^ d.exp.toNat : Int) : ℚ) := by
  simp only [ratOfPyDec, if_pos he, Rat.mkRat_one]

theorem ratOfPyDec_of_neg_exp {d : PyDec} (he : ¬ 0 ≤ d.exp) :
    ratOfPyDec d =
      (((if d.neg = true then -(d.coeff : Int) else (d.coeff : Int)) : Int) : ℚ) /
        ((10 ^ (-d.exp).toNat : Nat) : ℚ) := by
  simp only [ratOfPyDec, if_neg he, Rat.mkRat_eq_divInt, Rat.divInt_eq_div]
  norm_cast

theorem toIntTrunc_eq_ratTruncZ (d : PyDec) :
    d.toIntTrunc = ratTruncZ (ratOfPyDec d) := by
  rcases le_or_lt 0 d.exp with he | he
  · rw [ratOfPyDec_of_nonneg_exp he, ratTruncZ_intCast, PyDec.toIntTrunc]
    simp only [if_pos he]
    rcases hneg : d.neg with _ | _
    · simp only [Bool.false_eq_true, if_false]
      push_cast
      ring
    · simp only [if_true]
      push_cast
      ring
  · have he2 : ¬ 0 ≤ d.exp := not_le.mpr he
    rw [ratOfPyDec_of_neg_exp he2, PyDec.toIntTrunc]
    simp only [if_neg he2]
    rcases hneg : d.neg with _ | _
    · simp only [Bool.false_eq_true, if_false]
      rw [show ((((d.coeff : Nat) : Int)) : ℚ) = ((d.coeff : Nat) : ℚ) by
        push_cast; ring]
      exact (ratTruncZ_natCast_div d.coeff (10 ^ (-d.exp).toNat)).symm
    · simp only [if_true]
      rw [show (((-(d.coeff : Int)) : Int) : ℚ) / ((10 ^ (-d.exp).toNat : Nat) : ℚ) =
        -(((d.coeff : Nat) : ℚ) / ((10 ^ (-d.exp).toNat : Nat) : ℚ)) by
          push_cast; ring]
      exact (ratTruncZ_neg_natCast_div d.coeff (10 ^ (-d.exp).toNat)).symm

theorem toIntTrunc_scaled_eq_specScaledTrunc (d : PyDec) :
    PyDec.toIntTrunc { neg := d.neg, coeff := d.coeff * 100000000, exp := d.exp } =
      specScaledTrunc d := by
  rw [PyDec.toIntTrunc, specScaledTrunc]
  have h8 : (100000000 : Nat) = 10 ^ 8 := by norm_num
  have hmag :
      (if 0 ≤ d.exp then d.coeff * 100000000 * 10 ^ d.exp.toNat
       else d.coeff * 100000000 / 10 ^ (-d.exp).toNat) =
      (if 0 ≤ d.exp + 8 then d.coeff * 10 ^ (d.exp + 8).toNat
       else d.coeff / 10 ^ (-(d.exp + 8)).toNat) := by
    rcases le_or_lt 0 d.exp with he | he
    · rw [if_pos he, if_pos (by omega)]
      rw [h8, show (d.exp + 8).toNat = d.exp.toNat + 8 by omega, pow_add]
      ring
    · rw [if_neg (by omega)]
      rcases le_or_lt 0 (d.exp + 8) with he8 | he8
      · rw [if_pos he8]
        have hu : (-d.exp).toNat = 8 - (d.exp + 8).toNat := by omega
        have hsum : (d.exp + 8).toNat + (-d.exp).toNat = 8 := by omega
        rw [h8, show (10 : Nat) ^ 8 = 10 ^ (d.exp + 8).toNat * 10 ^ (-d.exp).toNat by
          rw [← pow_add, hsum]]
        rw [show d.coeff * (10 ^ (d.exp + 8).toNat * 10 ^ (-d.exp).toNat) =
          d.coeff * 10 ^ (d.exp + 8).toNat * 10 ^ (-d.exp).toNat by ring]
        exact Nat.mul_div_cancel _ (Nat.pos_pow_of_pos _ (by norm_num))
      · rw [if_neg (by omega)]
        have hu : (-d.exp).toNat = (-(d.exp + 8)).toNat + 8 := by omega
        rw [h8, hu, pow_add]
        rw [show d.coeff * 10 ^ 8 / (10 ^ (-(d.exp + 8)).toNat * 10 ^ 8) =
          d.coeff * 10 ^ 8 / 10 ^ 8 / 10 ^ (-(d.exp + 8)).toNat by
            rw [Nat.div_div_eq_div_mul]
            ring_nf]
        rw [Nat.mul_div_cancel _ (Nat.pos_pow_of_pos _ (by norm_num))]
  rw [hmag]

theorem ratOfPyDec_scaled (d : PyDec) :
    ratOfPyDec { neg := d.neg, coeff := d.coeff * 100000000, exp := d.exp } =
      ratOfPyDec d * (10 : ℚ) ^ (8 : Nat) := by
  have h8 : ((10 : ℚ) ^ (8 : Nat)) = 100000000 := by norm_num
  rcases le_or_lt 0 d.exp with he | he
  · rw [ratOfPyDec_of_nonneg_exp (d := d) he,
      ratOfPyDec_of_nonneg_exp (d := ⟨d.neg, d.coeff * 100000000, d.exp⟩) he, h8]
    rcases d.neg with _ | _ <;> simp <;> ring
  · have he2 : ¬ 0 ≤ d.exp := not_le.mpr he
    rw [ratOfPyDec_of_neg_exp (d := d) he2,
      ratOfPyDec_of_neg_exp (d := ⟨d.neg, d.coeff * 100000000, d.exp⟩) he2, h8]
    have hp : ((10 ^ (-d.exp).toNat : Nat) : ℚ) ≠ 0 := by positivity
    rcases d.neg with _ | _ <;> simp <;> field_simp

/-! ## Claim C1 -/

/-- C1 counterexample: on the decimal string 0.000000019 the converter
returns 1, while round(Decimal(d) * 10^8) = round(1.9) = 2: the code
truncates with int() and does not round. -/
theorem hype_to_wei_round_counterexample :
    hype_to_wei "0.000000019" = .ok 1 ∧
      specScaledRound "0.000000019" = some 2 ∧
      hype_to_wei "0.000000019" ≠ .ok 2 :=
  ⟨rfl, rfl, by decide⟩

/-- C1 amended: for every decimal string accepted by the converter whose
coefficient has at most 20 significant digits (so that the 28-digit
context precision cannot round the product), hype_to_wei returns exactly
the truncation toward zero of Decimal(d) * 10^8 computed with exact
decimal arithmetic, failing with the non-positive error exactly when that
truncation is not positive; the truncation agrees with the exact rational
value of the input scaled by 10^8. -/
theorem hype_to_wei_exact_truncation :
    ∀ (s : String) (d : PyDec), parseDecimalChars s.data = some d →
      d.coeff < 10 ^ 20 →
      hype_to_wei s =
        (if specScaledTrunc d ≤ 0 then .error .nonPositive
         else .ok (specScaledTrunc d)) ∧
      specScaledTrunc d = ratTruncZ (ratOfPyDec d * (10 : ℚ) ^ (8 : Nat)) := by
  intro s d hparse hbound
  have hkey : (decMul d HYPE_WEI_FACTOR_DEC).toIntTrunc = specScaledTrunc d := by
    rw [decMul_wei_factor hbound]
    exact toIntTrunc_scaled_eq_specScaledTrunc d
  constructor
  · simp only [hype_to_wei, hparse, hkey]
  · rw [← toIntTrunc_scaled_eq_specScaledTrunc d,
      toIntTrunc_eq_ratTruncZ, ratOfPyDec_scaled]

/-- C1 witness: the converter maps 1.23 to exactly 123000000. -/
theorem hype_to_wei_exact_truncation_witness :
    hype_to_wei "1.23" = .ok 123000000 := by
  have h := (hype_to_wei_exact_truncation "1.23" ⟨false, 123, -2⟩ rfl
    (by decide)).1
  rw [h]
  decide

/-! ## Claim C5 -/

/-- C5: the converter fails with the non-positive error exactly when the
scaled integer result is not positive; the strings 0, -1 and 0.000000001
all fail for that reason, a higher-precision decimal string such as
1.000000001 is truncated rather than rejected, and every successful result
is strictly positive. -/
theorem hype_to_wei_nonpositive_exactly :
    (hype_to_wei "0" = .error .nonPositive ∧
     hype_to_wei "-1" = .error .nonPositive ∧
     hype_to_wei "0.000000001" = .error .nonPositive ∧
     hype_to_wei "1.000000001" = .ok 100000000) ∧
    (∀ s d, parseDecimalChars s.data = some d →
      ((hype_to_wei s = .error .nonPositive ↔
          (decMul d HYPE_WEI_FACTOR_DEC).toIntTrunc ≤ 0) ∧
        (0 < (decMul d HYPE_WEI_FACTOR_DEC).toIntTrunc →
          hype_to_wei s = .ok ((decMul d HYPE_WEI_FACTOR_DEC).toIntTrunc)))) ∧
    (∀ s w, hype_to_wei s = .ok w → 0 < w) := by
  refine ⟨⟨rfl, rfl, rfl, rfl⟩, ?_, ?_⟩
  · intro s d hparse
    have hw : hype_to_wei s =
        (if (decMul d HYPE_WEI_FACTOR_DEC).toIntTrunc ≤ 0 then
          .error .nonPositive
         else .ok ((decMul d HYPE_WEI_FACTOR_DEC).toIntTrunc)) := by
      simp only [hype_to_wei, hparse]
    rw [hw]
    by_cases h : (decMul d HYPE_WEI_FACTOR_DEC).toIntTrunc ≤ 0
    · refine ⟨by simp [h], ?_⟩
      intro hpos
      omega
    · refine ⟨by simp [h], ?_⟩
      intro _
      rw [if_neg h]
  · intro s w h
    simp only [hype_to_wei] at h
    rcases hp : parseDecimalChars s.data with _ | d
    · rw [hp] at h
      simp at h
    · rw [hp] at h
      dsimp only at h
      by_cases hle : (decMul d HYPE_WEI_FACTOR_DEC).toIntTrunc ≤ 0
      · rw [if_pos hle] at h
        simp at h
      · rw [if_neg hle] at h
        simp only [Except.ok.injEq] at h
        omega

/-- C5 witness: the string 2 converts to the strictly positive result
200000000. -/
theorem hype_to_wei_nonpositive_exactly_witness :
    hype_to_wei "2" = .ok 200000000 := by
  have h := (hype_to_wei_nonpositive_exactly.2.1 "2" ⟨false, 2, 0⟩ rfl).2
    (by decide)
  rw [h]
  decide

/-! ## Claim C3 -/

theorem isPrefixOf_0x_iff (l : List Char) :
    (['0', 'x'].isPrefixOf l) = true ↔ l.take 2 = ['0', 'x'] := by
  match l with
  | [] => simp [List.isPrefixOf]
  | [a] => simp [List.isPrefixOf]
  | a :: b :: t =>
    simp [List.isPrefixOf]
    constructor <;> rintro ⟨h1, h2⟩ <;> exact ⟨h1.symm, h2.symm⟩

/-- C3 counterexample: the address check accepts a 42-character string of
0x followed by 40 letters z, which the claim says must fail because the
trailing characters are not hexadecimal. -/
theorem address_check_accepts_nonhex :
    isValidAddress "0xzzzzzzzzzzzzzzzzzzzzzzzzzzzzzzzzzzzzzzzz" = true ∧
      matchesHexAddress "0xzzzzzzzzzzzzzzzzzzzzzzzzzzzzzzzzzzzzzzzz" = false :=
  ⟨rfl, rfl⟩

/-- C3 amended: the address validation accepts a string exactly when it
starts with the two characters 0x and has 42 characters in total; the hex
digits of the remaining 40 characters are not inspected.  Any rejected
string aborts the unstake and vault-transfer actions with no collaborator
call, and fails the vault-withdraw resolution with the invalid-address
error. -/
theorem address_shape_amended :
    (∀ s : String, isValidAddress s = true ↔
        (s.data.take 2 = ['0', 'x'] ∧ s.data.length = 42)) ∧
    (∀ v a c, isValidAddress (pyStrip v) = false → action_unstake v a c = []) ∧
    (∀ v dc a c, isValidAddress (pyStrip v) = false →
        action_vault_transfer v dc a c = []) ∧
    (∀ (ae ce : Option String) (va : String), va ≠ "" →
        isValidAddress va = false →
        resolveVaultAddressV (some va) ae ce = .error .invalidVaultAddress) := by
  refine ⟨?_, ?_, ?_, ?_⟩
  · intro s
    rw [isValidAddress, pyStartswith, pyLen,
      show ("0x".data) = ['0', 'x'] from rfl, Bool.and_eq_true, beq_iff_eq,
      isPrefixOf_0x_iff]
  · intro v a c h
    simp [action_unstake, h]
  · intro v dc a c h
    simp [action_vault_transfer, h]
  · intro ae ce va hne h
    simp [resolveVaultAddressV, first_non_none3, hne, h]

/-- C3 witness: the too-short address 0xAB aborts the unstake action and
fails the vault-withdraw resolution with the invalid-address error. -/
theorem address_shape_amended_witness :
    action_unstake "0xAB" "5" true = [] ∧
      resolveVaultAddressV (some "0xAB") none none =
        .error .invalidVaultAddress :=
  ⟨address_shape_amended.2.1 "0xAB" "5" true (by decide),
   address_shape_amended.2.2.2 none none "0xAB" (by decide) (by decide)⟩

/-! ## Claim C8 -/

/-- C8 counterexample: the string TRUE is not one of the eight recognized
encodings the claim lists, yet with default false the parser returns true
rather than the default, because the comparison happens after lowercasing. -/
theorem str_to_bool_uppercase_counterexample :
    str_to_bool (some "TRUE") false = true ∧
      ("TRUE" ≠ "1" ∧ "TRUE" ≠ "true" ∧ "TRUE" ≠ "yes" ∧ "TRUE" ≠ "y" ∧
       "TRUE" ≠ "0" ∧ "TRUE" ≠ "false" ∧ "TRUE" ≠ "no" ∧ "TRUE" ≠ "n") :=
  ⟨rfl, by decide⟩

/-- C8 amended: boolean-flag parsing first strips and lowercases the
string; the normalized form 1, true, yes or y gives true, the normalized
form 0, false, no or n gives false, any other string and an absent value
give the provided default. -/
theorem str_to_bool_amended :
    (∀ d : Bool, str_to_bool none d = d) ∧
    (∀ (s : String) (d : Bool),
      str_to_bool (some s) d =
        (if pyLower (pyStrip s) ∈ (["1", "true", "yes", "y"] : List String)
         then true
         else if pyLower (pyStrip s) ∈ (["0", "false", "no", "n"] : List String)
         then false
         else d)) ∧
    str_to_bool (some " TRUE ") false = true ∧
    str_to_bool (some "Maybe") true = true ∧
    str_to_bool (some "Maybe") false = false := by
  refine ⟨fun _ => rfl, ?_, rfl, rfl, rfl⟩
  intro s d
  rw [str_to_bool]
  simp only [List.mem_cons, List.not_mem_nil, or_false]

/-! ## Claim C9 -/

/-- C9: when the first present source for the private key or the vault
address supplies the empty string, resolution fails with the corresponding
missing-field error, whatever the later sources hold. -/
theorem empty_first_source_fails_missing :
    ∀ later cfg : Option String,
      resolvePrivateKeyV (some "") later cfg = .error .missingPrivateKey ∧
      resolvePrivateKeyV none (some "") cfg = .error .missingPrivateKey ∧
      resolvePrivateKeyV none none (some "") = .error .missingPrivateKey ∧
      resolveVaultAddressV (some "") later cfg = .error .missingVaultAddress ∧
      resolveVaultAddressV none (some "") cfg = .error .missingVaultAddress ∧
      resolveVaultAddressV none none (some "") = .error .missingVaultAddress :=
  fun _ _ => ⟨rfl, rfl, rfl, rfl, rfl, rfl⟩

/-! ## Claim C10 -/

/-- C10: with no testnet flag, no environment variable and no config
entry, the resolved network flag is mainnet and the resolved direction is
withdraw, and supplied boolean strings are normalized by stripping and
lowercasing before comparison, so TRUE is accepted. -/
theorem vault_flag_defaults :
    resolveIsMainnet false none none = true ∧
    resolveIsDeposit false false none none = false ∧
    str_to_bool (some " TRUE ") false = true ∧
    str_to_bool (some "TRUE") false = true ∧
    resolveVaultConfig
      ⟨some "0xk", some "0xaaaaaaaaaaaaaaaaaaaaaaaaaaaaaaaaaaaaaaaa", some 2,
       false, false, false, none, none, none, none, none, none, none, none,
       none, none⟩ =
      .ok ⟨"0xk", "0xaaaaaaaaaaaaaaaaaaaaaaaaaaaaaaaaaaaaaaaa", 2, true,
        false⟩ :=
  ⟨rfl, rfl, rfl, rfl, by decide⟩

/-! ## Claim C4 -/

/-- C4 counterexample: with an explicit amount of 2 present, a malformed
environment amount abc still makes the run fail with the float ValueError,
so the content of a later source affects the outcome even though an
earlier source is present. -/
theorem amount_env_eager_parse_counterexample :
    resolveAmountUsdV (some 2) (some "abc") none = .error .valueError ∧
      resolveVaultConfig
        ⟨some "0xk", some "0xaaaaaaaaaaaaaaaaaaaaaaaaaaaaaaaaaaaaaaaa",
         some 2, false, false, false, none, none, some "abc", none, none,
         none, none, none, none, none⟩ = .error .valueError :=
  ⟨rfl, by decide⟩

/-- C4 amended: resolution returns the first present value in the order
explicit, environment, file, for every field; for the string fields the
later sources are never consulted once an earlier one is present; for the
amount field the environment string is parsed by float() before
resolution, so the first-present-wins chain holds only when that parse
succeeds, and a malformed environment amount fails the run even with an
explicit amount present. -/
theorem resolution_precedence_amended :
    (∀ (α : Type) (x : α) (e f : Option α),
      first_non_none3 (some x) e f = some x ∧
      first_non_none3 none (some x) f = some x ∧
      first_non_none3 none none (some x) = some x ∧
      first_non_none3 (α := α) none none none = none) ∧
    (∀ A B C : String, A ≠ "" → B ≠ "" → C ≠ "" →
      resolvePrivateKeyV (some A) (some B) (some C) = .ok A ∧
      resolvePrivateKeyV none (some B) (some C) = .ok B ∧
      resolvePrivateKeyV none none (some C) = .ok C) ∧
    (∀ A B C : String, isValidAddress A = true → isValidAddress B = true →
      isValidAddress C = true →
      resolveVaultAddressV (some A) (some B) (some C) = .ok A ∧
      resolveVaultAddressV none (some B) (some C) = .ok B ∧
      resolveVaultAddressV none none (some C) = .ok C) ∧
    (∀ (A : ℚ) (bs : String) (B C : ℚ), pyFloat bs = some B →
      0 < A → 0 < B → 0 < C →
      resolveAmountUsdV (some A) (some bs) (some C) = .ok A ∧
      resolveAmountUsdV none (some bs) (some C) = .ok B ∧
      resolveAmountUsdV none none (some C) = .ok C) ∧
    (∀ (A : String) (e f e2 f2 : Option String),
      resolvePrivateKeyV (some A) e f = resolvePrivateKeyV (some A) e2 f2 ∧
      resolveVaultAddressV (some A) e f = resolveVaultAddressV (some A) e2 f2) := by
  have hnonempty : ∀ s : String, isValidAddress s = true → s ≠ "" := by
    intro s hs h
    rw [h] at hs
    exact absurd hs (by decide)
  refine ⟨fun _ _ _ _ => ⟨rfl, rfl, rfl, rfl⟩, ?_, ?_, ?_,
    fun _ _ _ _ _ => ⟨rfl, rfl⟩⟩
  · intro A B C hA hB hC
    exact ⟨by simp [resolvePrivateKeyV, first_non_none3, hA],
      by simp [resolvePrivateKeyV, first_non_none3, hB],
      by simp [resolvePrivateKeyV, first_non_none3, hC]⟩
  · intro A B C hA hB hC
    exact ⟨by simp [resolveVaultAddressV, first_non_none3, hnonempty A hA, hA],
      by simp [resolveVaultAddressV, first_non_none3, hnonempty B hB, hB],
      by simp [resolveVaultAddressV, first_non_none3, hnonempty C hC, hC]⟩
  · intro A bs B C hparse hA hB hC
    refine ⟨?_, ?_, ?_⟩
    · simp [resolveAmountUsdV, hparse, first_non_none3, not_le.mpr hA]
    · simp [resolveAmountUsdV, hparse, first_non_none3, not_le.mpr hB]
    · simp [resolveAmountUsdV, first_non_none3, not_le.mpr hC]

/-- C4 witness: with all three sources present the explicit private key
wins, and with no explicit amount the environment amount 2 wins over the
config amount 3. -/
theorem resolution_precedence_amended_witness :
    resolvePrivateKeyV (some "k") (some "e") (some "c") = .ok "k" ∧
      resolveAmountUsdV none (some "2") (some 3) =
        .ok (ratOfPyDec ⟨false, 2, 0⟩) :=
  ⟨(resolution_precedence_amended.2.1 "k" "e" "c" (by decide) (by decide)
      (by decide)).1,
   (resolution_precedence_amended.2.2.2.1 1 "2" (ratOfPyDec ⟨false, 2, 0⟩) 3
      rfl (by decide) (by decide) (by decide)).2.1⟩

/-! ## Claim C7 -/

/-- C7 counterexample: with the amount absent from all three of its
sources but a malformed vault address present, resolution fails with the
invalid-address error, not with a missing-required-field condition naming
the amount. -/
theorem missing_amount_masked_counterexample :
    resolveVaultConfig
      ⟨some "0xk", some "0xAB", none, false, false, false, none, none, none,
       none, none, none, none, none, none, none⟩ =
        .error .invalidVaultAddress ∧
      VWError.isMissingField .invalidVaultAddress = false :=
  ⟨by decide, rfl⟩

/-- C7 amended: the three required fields are checked in the order private
key, vault address, amount; when every earlier check passes and a required
field is absent from all of its sources, resolution fails with the
missing-field error naming that field, and no signing or posting call is
made. -/
theorem missing_field_errors_amended :
    ∀ i : VaultCliInputs,
      (i.argPrivateKey = none → i.envPrivateKey = none →
        i.cfgPrivateKey = none →
        resolveVaultConfig i = .error .missingPrivateKey ∧
          vaultWithdrawCalls i = []) ∧
      (∀ pk, resolvePrivateKeyV i.argPrivateKey i.envPrivateKey
          i.cfgPrivateKey = .ok pk →
        i.argVaultAddress = none → i.envVaultAddress = none →
        i.cfgVaultAddress = none →
        resolveVaultConfig i = .error .missingVaultAddress ∧
          vaultWithdrawCalls i = []) ∧
      (∀ pk va, resolvePrivateKeyV i.argPrivateKey i.envPrivateKey
          i.cfgPrivateKey = .ok pk →
        resolveVaultAddressV i.argVaultAddress i.envVaultAddress
          i.cfgVaultAddress = .ok va →
        i.argAmountUsd = none → i.envAmountUsd = none →
        i.cfgAmountUsd = none →
        resolveVaultConfig i = .error .missingAmount ∧
          vaultWithdrawCalls i = []) := by
  intro i
  refine ⟨?_, ?_, ?_⟩
  · intro ha he hc
    have h1 : resolveVaultConfig i = .error .missingPrivateKey := by
      simp only [resolveVaultConfig, ha, he, hc]
      rfl
    exact ⟨h1, by simp [vaultWithdrawCalls, h1]⟩
  · intro pk hpk ha he hc
    have h1 : resolveVaultConfig i = .error .missingVaultAddress := by
      simp only [resolveVaultConfig, hpk, ha, he, hc]
      rfl
    exact ⟨h1, by simp [vaultWithdrawCalls, h1]⟩
  · intro pk va hpk hva ha he hc
    have h1 : resolveVaultConfig i = .error .missingAmount := by
      simp only [resolveVaultConfig, hpk, hva, ha, he, hc]
      rfl
    exact ⟨h1, by simp [vaultWithdrawCalls, h1]⟩

/-- C7 witness: with every source of the private key absent the run fails
with the missing-private-key error and makes no call, and with the first
two fields resolved and every amount source absent it fails with the
missing-amount error and makes no call. -/
theorem missing_field_errors_amended_witness :
    (resolveVaultConfig
      ⟨none, none, none, false, false, false, none, none, none, none, none,
       none, none, none, none, none⟩ = .error .missingPrivateKey) ∧
    (resolveVaultConfig
      ⟨some "0xk", some "0xaaaaaaaaaaaaaaaaaaaaaaaaaaaaaaaaaaaaaaaa", none,
       false, false, false, none, none, none, none, none, none, none, none,
       none, none⟩ = .error .missingAmount) :=
  ⟨((missing_field_errors_amended
      ⟨none, none, none, false, false, false, none, none, none, none, none,
       none, none, none, none, none⟩).1 rfl rfl rfl).1,
   ((missing_field_errors_amended
      ⟨some "0xk", some "0xaaaaaaaaaaaaaaaaaaaaaaaaaaaaaaaaaaaaaaaa", none,
       false, false, false, none, none, none, none, none, none, none, none,
       none, none⟩).2.2 "0xk" "0xaaaaaaaaaaaaaaaaaaaaaaaaaaaaaaaaaaaaaaaa"
      rfl (by decide) rfl rfl rfl).1⟩

/-! ## Claim C2 -/

/-- C2 counterexample: the overview fetch queries the collaborator twice
in a single run (summary and rewards), with no confirmation step, so the
collaborator is not invoked at most once per run and not only after an
affirmative confirmation. -/
theorem overview_two_calls_counterexample :
    ¬ ((show_staking_overview "0xabc").length ≤ 1) ∧
      show_staking_overview "0xabc" =
        [.queryStakingSummary "0xabc", .queryStakingRewards "0xabc"] :=
  ⟨by decide, rfl⟩

/-- C2 amended: for the interactive unstake and vault-transfer operations
a declined confirmation makes no collaborator call at all, and any run
submits at most one state-changing action; the overview fetch performs
exactly its two read-only queries unconditionally, with no confirmation
step and no submission; the non-interactive vault-withdraw run (which has
no confirmation prompt) also submits at most one action. -/
theorem confirmation_gating_amended :
    (∀ v a, action_unstake v a false = []) ∧
    (∀ v a c, submissionCount (action_unstake v a c) ≤ 1) ∧
    (∀ v dc a, action_vault_transfer v dc a false = []) ∧
    (∀ v dc a c, submissionCount (action_vault_transfer v dc a c) ≤ 1) ∧
    (∀ addr, show_staking_overview addr =
        [.queryStakingSummary addr, .queryStakingRewards addr] ∧
      submissionCount (show_staking_overview addr) = 0) ∧
    (∀ i, submissionCount (vaultWithdrawCalls i) ≤ 1) := by
  refine ⟨?_, ?_, ?_, ?_, fun _ => ⟨rfl, rfl⟩, ?_⟩
  · intro v a
    simp only [action_unstake]
    split
    · rfl
    · cases h : hype_to_wei (pyStrip a) <;> simp
  · intro v a c
    simp only [action_unstake]
    split
    · simp [submissionCount]
    · cases h : hype_to_wei (pyStrip a) <;> cases c <;>
        simp [submissionCount, isSubmissionCall, List.countP_cons]
  · intro v dc a
    simp only [action_vault_transfer]
    split
    · rfl
    · cases h : pyFloat (pyStrip a) <;> simp
  · intro v dc a c
    simp only [action_vault_transfer]
    split
    · simp [submissionCount]
    · cases h : pyFloat (pyStrip a) with
      | none => simp [submissionCount]
      | some amt =>
        by_cases hamt : amt ≤ 0
        · simp [submissionCount, hamt]
        · cases c <;>
            simp [submissionCount, hamt, isSubmissionCall,
              List.countP_cons, List.countP_nil]
  · intro i
    rw [vaultWithdrawCalls]
    cases h : resolveVaultConfig i <;>
      simp [submissionCount, isSubmissionCall, List.countP_cons]

/-! ## Claim C6: structural lemmas about the .env upsert -/

/-- A properly terminated text line: some newline-free body followed by
one newline character. -/
def IsNlLine (l : List Char) : Prop := ∃ m, l = m ++ ['\n'] ∧ '\n' ∉ m

theorem isPrefixOf_append_self (l t : List Char) :
    l.isPrefixOf (l ++ t) = true := by
  induction l with
  | nil => cases t <;> rfl
  | cons a l ih => simp [List.isPrefixOf, ih]

theorem pk_key_not_prefix_of_amt (t : List Char) :
    PK_KEY.isPrefixOf (AMT_KEY ++ t) = false := by
  simp [PK_KEY, AMT_KEY, List.isPrefixOf]

theorem amt_key_not_prefix_of_pk (t : List Char) :
    AMT_KEY.isPrefixOf (PK_KEY ++ t) = false := by
  simp [PK_KEY, AMT_KEY, List.isPrefixOf]

theorem pk_amt_exclusive (l : List Char) :
    PK_KEY.isPrefixOf l = true → AMT_KEY.isPrefixOf l = false := by
  match l with
  | [] => intro h; exact absurd h (by decide)
  | c :: t =>
    intro h
    have hc : c = 'P' := by
      have := h
      simp [PK_KEY, List.isPrefixOf] at this
      exact this.1.symm
    subst hc
    simp [AMT_KEY, List.isPrefixOf]

theorem amt_pk_exclusive (l : List Char) :
    AMT_KEY.isPrefixOf l = true → PK_KEY.isPrefixOf l = false := by
  match l with
  | [] => intro h; exact absurd h (by decide)
  | c :: t =>
    intro h
    have hc : c = 'A' := by
      have := h
      simp [AMT_KEY, List.isPrefixOf] at this
      exact this.1.symm
    subst hc
    simp [PK_KEY, List.isPrefixOf]

theorem pyReadlines_eq_nil_iff (cs : List Char) :
    pyReadlines cs = [] ↔ cs = [] := by
  cases cs with
  | nil => simp [pyReadlines]
  | cons c rest =>
    simp only [pyReadlines]
    constructor
    · intro h
      by_cases hc : c = '\n'
      · rw [if_pos hc] at h
        exact absurd h (by simp)
      · rw [if_neg hc] at h
        rcases hr : pyReadlines rest with _ | ⟨l, ls⟩ <;> rw [hr] at h <;>
          simp at h
    · intro h
      exact absurd h (by simp)

theorem pyReadlines_nlline_append (l rest : List Char) (hl : IsNlLine l) :
    pyReadlines (l ++ rest) = l :: pyReadlines rest := by
  obtain ⟨m, rfl, hm⟩ := hl
  induction m with
  | nil =>
    simp [pyReadlines]
  | cons c m ih =>
    have hc : c ≠ '\n' := fun h => hm (by simp [h])
    have hm2 : '\n' ∉ m := fun h => hm (by simp [h])
    have ih2 := ih hm2
    have harr : ((c :: m) ++ ['\n']) ++ rest = c :: ((m ++ ['\n']) ++ rest) := by
      simp
    rw [harr, pyReadlines, if_neg hc, ih2]
    simp

theorem pyReadlines_flatten (ls : List (List Char))
    (h : ∀ l ∈ ls, IsNlLine l) : pyReadlines ls.flatten = ls := by
  induction ls with
  | nil => rfl
  | cons l t ih =>
    rw [List.flatten_cons,
      pyReadlines_nlline_append l t.flatten (h l (by simp))]
    rw [ih (fun l' hl' => h l' (by simp [hl']))]

theorem pyReadlines_all_nlline (cs : List Char)
    (hend : cs = [] ∨ cs.getLast? = some '\n') :
    ∀ l ∈ pyReadlines cs, IsNlLine l := by
  induction cs with
  | nil => simp [pyReadlines]
  | cons c rest ih =>
    have hend2 : (c :: rest).getLast? = some '\n' := by
      rcases hend with h | h
      · exact absurd h (by simp)
      · exact h
    have step : rest ≠ [] → rest.getLast? = some '\n' := by
      intro hne
      match rest, hne with
      | r :: rs, _ => rwa [List.getLast?_cons_cons] at hend2
    intro l hl
    by_cases hc : c = '\n'
    · rw [pyReadlines, if_pos hc] at hl
      rcases List.mem_cons.mp hl with rfl | hmem
      · exact ⟨[], rfl, by simp⟩
      · rcases eq_or_ne rest [] with rfl | hne
        · simp [pyReadlines] at hmem
        · exact ih (Or.inr (step hne)) l hmem
    · rw [pyReadlines, if_neg hc] at hl
      rcases eq_or_ne rest [] with rfl | hne
      · simp at hend2
        exact absurd hend2 hc
      · have hrl : rest.getLast? = some '\n' := step hne
        rcases hr : pyReadlines rest with _ | ⟨l0, ls0⟩
        · exact absurd ((pyReadlines_eq_nil_iff rest).mp hr) hne
        · rw [hr] at hl
          rcases List.mem_cons.mp hl with rfl | hmem
          · obtain ⟨m, hm0, hmn⟩ :=
              ih (Or.inr hrl) l0 (by rw [hr]; exact List.mem_cons_self _ _)
            exact ⟨c :: m, by rw [hm0]; simp, by
              intro hin
              rcases List.mem_cons.mp hin with h | h
              · exact hc h.symm
              · exact hmn h⟩
          · exact ih (Or.inr hrl) l (by rw [hr]; exact List.mem_cons_of_mem _ hmem)

theorem mem_upsertEnvLines {l p a : List Char} {ls : List (List Char)}
    (hl : l ∈ upsertEnvLines p a ls) : l = p ∨ l = a ∨ l ∈ ls := by
  rw [upsertEnvLines] at hl
  rcases List.mem_append.mp hl with h | h2
  · rcases List.mem_append.mp h with hmap | h2
    · obtain ⟨l', hl', rfl⟩ := List.mem_map.mp hmap
      rw [replaceLine]
      split
      · exact .inl rfl
      · split
        · exact .inr (.inl rfl)
        · exact .inr (.inr hl')
    · split at h2
      · simp at h2
      · simp at h2
        exact .inl h2
  · split at h2
    · simp at h2
    · simp at h2
      exact .inr (.inl h2)

theorem replaceLine_idem (p a : List Char)
    (hp : PK_KEY.isPrefixOf p = true) (hpa : PK_KEY.isPrefixOf a = false)
    (haa : AMT_KEY.isPrefixOf a = true) (l : List Char) :
    replaceLine p a (replaceLine p a l) = replaceLine p a l := by
  by_cases h1 : PK_KEY.isPrefixOf l = true
  · simp [replaceLine, h1, hp]
  · by_cases h2 : AMT_KEY.isPrefixOf l = true
    · simp [replaceLine, h1, h2, hpa, haa]
    · simp [replaceLine, h1, h2]

theorem mem_upsert_of_pk {p a : List Char} (ls : List (List Char)) :
    p ∈ upsertEnvLines p a ls := by
  rw [upsertEnvLines]
  by_cases hany : ls.any (fun l => PK_KEY.isPrefixOf l) = true
  · obtain ⟨l, hl, hpl⟩ := List.any_eq_true.mp hany
    refine List.mem_append.mpr (.inl (List.mem_append.mpr (.inl ?_)))
    refine List.mem_map.mpr ⟨l, hl, ?_⟩
    simp [replaceLine, hpl]
  · refine List.mem_append.mpr (.inl (List.mem_append.mpr (.inr ?_)))
    simp [hany]

theorem mem_upsert_of_amt {p a : List Char} (ls : List (List Char)) :
    a ∈ upsertEnvLines p a ls := by
  rw [upsertEnvLines]
  by_cases hany : ls.any (fun l => AMT_KEY.isPrefixOf l) = true
  · obtain ⟨l, hl, hal⟩ := List.any_eq_true.mp hany
    refine List.mem_append.mpr (.inl (List.mem_append.mpr (.inl ?_)))
    refine List.mem_map.mpr ⟨l, hl, ?_⟩
    simp [replaceLine, amt_pk_exclusive l hal, hal]
  · refine List.mem_append.mpr (.inr ?_)
    simp [hany]

theorem any_pk_upsert (p a : List Char) (ls : List (List Char))
    (hp : PK_KEY.isPrefixOf p = true) :
    (upsertEnvLines p a ls).any (fun l => PK_KEY.isPrefixOf l) = true :=
  List.any_eq_true.mpr ⟨p, mem_upsert_of_pk ls, hp⟩

theorem any_amt_upsert (p a : List Char) (ls : List (List Char))
    (haa : AMT_KEY.isPrefixOf a = true) :
    (upsertEnvLines p a ls).any (fun l => AMT_KEY.isPrefixOf l) = true :=
  List.any_eq_true.mpr ⟨a, mem_upsert_of_amt ls, haa⟩

theorem upsert_fixpoint (p a : List Char)
    (hp : PK_KEY.isPrefixOf p = true)
    (hpa : PK_KEY.isPrefixOf a = false) (haa : AMT_KEY.isPrefixOf a = true)
    (ls : List (List Char)) :
    upsertEnvLines p a (upsertEnvLines p a ls) = upsertEnvLines p a ls := by
  have hfp : replaceLine p a p = p := by simp [replaceLine, hp]
  have hfa : replaceLine p a a = a := by simp [replaceLine, hpa, haa]
  conv_lhs => rw [upsertEnvLines]
  rw [any_pk_upsert p a ls hp, any_amt_upsert p a ls haa,
    if_pos rfl, if_pos rfl, List.append_nil, List.append_nil]
  rw [upsertEnvLines]
  simp only [List.map_append, List.map_map]
  congr 1
  · congr 1
    · exact List.map_congr_left fun x _ => replaceLine_idem p a hp hpa haa x
    · by_cases h : ls.any (fun l => PK_KEY.isPrefixOf l) = true <;>
        simp [h, hfp]
  · by_cases h : ls.any (fun l => AMT_KEY.isPrefixOf l) = true <;>
      simp [h, hfa]

theorem filter_pk_map_replace (p a : List Char)
    (hp : PK_KEY.isPrefixOf p = true) (hpa : PK_KEY.isPrefixOf a = false)
    (ls : List (List Char)) :
    (ls.map (replaceLine p a)).filter (fun l => PK_KEY.isPrefixOf l) =
      List.replicate (ls.countP (fun l => PK_KEY.isPrefixOf l)) p := by
  induction ls with
  | nil => rfl
  | cons l t ih =>
    by_cases h1 : PK_KEY.isPrefixOf l = true
    · simp [replaceLine, h1, List.countP_cons, List.filter_cons, hp, ih,
        List.replicate_succ]
    · by_cases h2 : AMT_KEY.isPrefixOf l = true
      · simp [replaceLine, h1, h2, List.countP_cons, List.filter_cons, hpa, ih]
      · simp [replaceLine, h1, h2, List.countP_cons, List.filter_cons, ih]

theorem filter_amt_map_replace (p a : List Char)
    (hap : AMT_KEY.isPrefixOf p = false) (haa : AMT_KEY.isPrefixOf a = true)
    (ls : List (List Char)) :
    (ls.map (replaceLine p a)).filter (fun l => AMT_KEY.isPrefixOf l) =
      List.replicate (ls.countP (fun l => AMT_KEY.isPrefixOf l)) a := by
  induction ls with
  | nil => rfl
  | cons l t ih =>
    by_cases h1 : PK_KEY.isPrefixOf l = true
    · have h2 : AMT_KEY.isPrefixOf l = false := pk_amt_exclusive l h1
      simp [replaceLine, h1, h2, List.countP_cons, List.filter_cons, hap, ih]
    · by_cases h2 : AMT_KEY.isPrefixOf l = true
      · simp [replaceLine, h1, h2, List.countP_cons, List.filter_cons, haa, ih,
          List.replicate_succ]
      · simp [replaceLine, h1, h2, List.countP_cons, List.filter_cons, ih]

theorem filter_pk_upsert (p a : List Char)
    (hp : PK_KEY.isPrefixOf p = true) (hpa : PK_KEY.isPrefixOf a = false)
    (ls : List (List Char)) :
    (upsertEnvLines p a ls).filter (fun l => PK_KEY.isPrefixOf l) =
      List.replicate (ls.countP (fun l => PK_KEY.isPrefixOf l)) p ++
        (if ls.any (fun l => PK_KEY.isPrefixOf l) then [] else [p]) := by
  rw [upsertEnvLines, List.filter_append, List.filter_append,
    filter_pk_map_replace p a hp hpa ls]
  by_cases hany : ls.any (fun l => PK_KEY.isPrefixOf l) = true <;>
    by_cases hany2 : ls.any (fun l => AMT_KEY.isPrefixOf l) = true <;>
    simp [hany, hany2, hp, hpa]

theorem filter_amt_upsert (p a : List Char)
    (hap : AMT_KEY.isPrefixOf p = false) (haa : AMT_KEY.isPrefixOf a = true)
    (ls : List (List Char)) :
    (upsertEnvLines p a ls).filter (fun l => AMT_KEY.isPrefixOf l) =
      List.replicate (ls.countP (fun l => AMT_KEY.isPrefixOf l)) a ++
        (if ls.any (fun l => AMT_KEY.isPrefixOf l) then [] else [a]) := by
  rw [upsertEnvLines, List.filter_append, List.filter_append,
    filter_amt_map_replace p a hap haa ls]
  by_cases hany : ls.any (fun l => PK_KEY.isPrefixOf l) = true <;>
    by_cases hany2 : ls.any (fun l => AMT_KEY.isPrefixOf l) = true <;>
    simp [hany, hany2, hap, haa]

theorem filter_pk_upsert_single (p a : List Char)
    (hp : PK_KEY.isPrefixOf p = true) (hpa : PK_KEY.isPrefixOf a = false)
    (ls : List (List Char))
    (hc : ls.countP (fun l => PK_KEY.isPrefixOf l) ≤ 1) :
    (upsertEnvLines p a ls).filter (fun l => PK_KEY.isPrefixOf l) = [p] := by
  rw [filter_pk_upsert p a hp hpa ls]
  rcases hcount : ls.countP (fun l => PK_KEY.isPrefixOf l) with _ | n
  · have hany : ls.any (fun l => PK_KEY.isPrefixOf l) = false := by
      rw [List.any_eq_false]
      intro x hx
      have := List.countP_eq_zero.mp hcount x hx
      simpa using this
    simp [hany]
  · have hn : n = 0 := by omega
    subst hn
    have hany : ls.any (fun l => PK_KEY.isPrefixOf l) = true :=
      List.any_eq_true.mpr (List.countP_pos_iff.mp (by rw [hcount]; omega))
    simp [hany]

theorem filter_amt_upsert_single (p a : List Char)
    (hap : AMT_KEY.isPrefixOf p = false) (haa : AMT_KEY.isPrefixOf a = true)
    (ls : List (List Char))
    (hc : ls.countP (fun l => AMT_KEY.isPrefixOf l) ≤ 1) :
    (upsertEnvLines p a ls).filter (fun l => AMT_KEY.isPrefixOf l) = [a] := by
  rw [filter_amt_upsert p a hap haa ls]
  rcases hcount : ls.countP (fun l => AMT_KEY.isPrefixOf l) with _ | n
  · have hany : ls.any (fun l => AMT_KEY.isPrefixOf l) = false := by
      rw [List.any_eq_false]
      intro x hx
      have := List.countP_eq_zero.mp hcount x hx
      simpa using this
    simp [hany]
  · have hn : n = 0 := by omega
    subst hn
    have hany : ls.any (fun l => AMT_KEY.isPrefixOf l) = true :=
      List.any_eq_true.mpr (List.countP_pos_iff.mp (by rw [hcount]; omega))
    simp [hany]

theorem filter_unrelated_map (p a : List Char)
    (hp : PK_KEY.isPrefixOf p = true) (haa : AMT_KEY.isPrefixOf a = true)
    (ls : List (List Char)) :
    (ls.map (replaceLine p a)).filter
        (fun l => !(PK_KEY.isPrefixOf l) && !(AMT_KEY.isPrefixOf l)) =
      ls.filter (fun l => !(PK_KEY.isPrefixOf l) && !(AMT_KEY.isPrefixOf l)) := by
  induction ls with
  | nil => rfl
  | cons l t ih =>
    by_cases h1 : PK_KEY.isPrefixOf l = true
    · simp [replaceLine, h1, List.filter_cons, ih, hp]
    · by_cases h2 : AMT_KEY.isPrefixOf l = true
      · simp [replaceLine, h1, h2, List.filter_cons, ih, haa]
      · simp [replaceLine, h1, h2, List.filter_cons, ih]

theorem filter_unrelated_upsert (p a : List Char)
    (hp : PK_KEY.isPrefixOf p = true) (haa : AMT_KEY.isPrefixOf a = true)
    (ls : List (List Char)) :
    (upsertEnvLines p a ls).filter
        (fun l => !(PK_KEY.isPrefixOf l) && !(AMT_KEY.isPrefixOf l)) =
      ls.filter (fun l => !(PK_KEY.isPrefixOf l) && !(AMT_KEY.isPrefixOf l)) := by
  rw [upsertEnvLines, List.filter_append, List.filter_append,
    filter_unrelated_map p a hp haa ls]
  by_cases hany : ls.any (fun l => PK_KEY.isPrefixOf l) = true <;>
    by_cases hany2 : ls.any (fun l => AMT_KEY.isPrefixOf l) = true <;>
    simp [hany, hany2, hp, haa]

theorem nlline_envLine (key v : List Char) (hk : '\n' ∉ key)
    (hv : '\n' ∉ v) : IsNlLine (envLine key v) := by
  refine ⟨key ++ v, by rw [envLine], ?_⟩
  intro h
  rcases List.mem_append.mp h with h | h
  · exact hk h
  · exact hv h

theorem pk_prefix_envLine_pk (v : List Char) :
    PK_KEY.isPrefixOf (envLine PK_KEY v) = true := by
  rw [envLine, List.append_assoc]
  exact isPrefixOf_append_self _ _

theorem pk_prefix_envLine_amt (v : List Char) :
    PK_KEY.isPrefixOf (envLine AMT_KEY v) = false := by
  rw [envLine, List.append_assoc]
  exact pk_key_not_prefix_of_amt _

theorem amt_prefix_envLine_amt (v : List Char) :
    AMT_KEY.isPrefixOf (envLine AMT_KEY v) = true := by
  rw [envLine, List.append_assoc]
  exact isPrefixOf_append_self _ _

theorem amt_prefix_envLine_pk (v : List Char) :
    AMT_KEY.isPrefixOf (envLine PK_KEY v) = false := by
  rw [envLine, List.append_assoc]
  exact amt_key_not_prefix_of_pk _

theorem upsert_lines_nlline (pkVal amtVal : List Char)
    (hnp : '\n' ∉ pkVal) (hna : '\n' ∉ amtVal) (ls : List (List Char))
    (hls : ∀ l ∈ ls, IsNlLine l) :
    ∀ l ∈ upsertEnvLines (envLine PK_KEY pkVal) (envLine AMT_KEY amtVal) ls,
      IsNlLine l := by
  intro l hl
  rcases mem_upsertEnvLines hl with rfl | rfl | h
  · exact nlline_envLine _ _ (by decide) hnp
  · exact nlline_envLine _ _ (by decide) hna
  · exact hls l h

/-! ## Claim C6: the claims themselves -/

/-- C6 counterexample: starting from the one-line file FOO=1 with no
trailing newline, writing the two keys twice with the same values does not
leave the file byte-identical to the state after the first write: the
first write glues the appended private-key line onto the unterminated
line, so the second write appends the private-key line again. -/
theorem env_upsert_not_idempotent_counterexample :
    prepareEnvContent (prepareEnvContent ("FOO=1".data) ("k".data)
        ("10".data)) ("k".data) ("10".data) ≠
      prepareEnvContent ("FOO=1".data) ("k".data) ("10".data) := by
  decide

/-- C6 amended: when the initial file is empty or ends with a newline and
holds at most one line per recognized key, and the written values contain
no newline, the upsert is idempotent (writing the same values twice leaves
the content identical), writing a key twice leaves exactly one line for
that key holding the second value, and every line not matching a
recognized key is preserved verbatim and in its original order. -/
theorem env_upsert_amended :
    ∀ (content pkVal pkVal2 amtVal amtVal2 : List Char),
      content = [] ∨ content.getLast? = some '\n' →
      '\n' ∉ pkVal → '\n' ∉ pkVal2 → '\n' ∉ amtVal → '\n' ∉ amtVal2 →
      (pyReadlines content).countP (fun l => PK_KEY.isPrefixOf l) ≤ 1 →
      (pyReadlines content).countP (fun l => AMT_KEY.isPrefixOf l) ≤ 1 →
      (prepareEnvContent (prepareEnvContent content pkVal amtVal) pkVal
          amtVal = prepareEnvContent content pkVal amtVal) ∧
      ((pyReadlines (prepareEnvContent (prepareEnvContent content pkVal
          amtVal) pkVal2 amtVal2)).filter (fun l => PK_KEY.isPrefixOf l) =
          [envLine PK_KEY pkVal2]) ∧
      ((pyReadlines (prepareEnvContent (prepareEnvContent content pkVal
          amtVal) pkVal2 amtVal2)).filter (fun l => AMT_KEY.isPrefixOf l) =
          [envLine AMT_KEY amtVal2]) ∧
      ((pyReadlines (prepareEnvContent content pkVal amtVal)).filter
          (fun l => !(PK_KEY.isPrefixOf l) && !(AMT_KEY.isPrefixOf l)) =
        (pyReadlines content).filter
          (fun l => !(PK_KEY.isPrefixOf l) && !(AMT_KEY.isPrefixOf l))) := by
  intro content pkVal pkVal2 amtVal amtVal2 hend hnp hnp2 hna hna2 hcpk hcamt
  have hL0 := pyReadlines_all_nlline content hend
  have hlines1 := upsert_lines_nlline pkVal amtVal hnp hna
    (pyReadlines content) hL0
  have hround1 : pyReadlines (prepareEnvContent content pkVal amtVal) =
      upsertEnvLines (envLine PK_KEY pkVal) (envLine AMT_KEY amtVal)
        (pyReadlines content) := by
    rw [prepareEnvContent]
    exact pyReadlines_flatten _ hlines1
  have hcount1pk : (upsertEnvLines (envLine PK_KEY pkVal)
      (envLine AMT_KEY amtVal) (pyReadlines content)).countP
        (fun l => PK_KEY.isPrefixOf l) ≤ 1 := by
    rw [List.countP_eq_length_filter,
      filter_pk_upsert_single _ _ (pk_prefix_envLine_pk pkVal)
        (pk_prefix_envLine_amt amtVal) _ hcpk]
    simp
  have hcount1amt : (upsertEnvLines (envLine PK_KEY pkVal)
      (envLine AMT_KEY amtVal) (pyReadlines content)).countP
        (fun l => AMT_KEY.isPrefixOf l) ≤ 1 := by
    rw [List.countP_eq_length_filter,
      filter_amt_upsert_single _ _ (amt_prefix_envLine_pk pkVal)
        (amt_prefix_envLine_amt amtVal) _ hcamt]
    simp
  have hlines2 := upsert_lines_nlline pkVal2 amtVal2 hnp2 hna2
    (upsertEnvLines (envLine PK_KEY pkVal) (envLine AMT_KEY amtVal)
      (pyReadlines content)) hlines1
  have hround2 : pyReadlines (prepareEnvContent (prepareEnvContent content
      pkVal amtVal) pkVal2 amtVal2) =
      upsertEnvLines (envLine PK_KEY pkVal2) (envLine AMT_KEY amtVal2)
        (upsertEnvLines (envLine PK_KEY pkVal) (envLine AMT_KEY amtVal)
          (pyReadlines content)) := by
    rw [prepareEnvContent, hround1]
    exact pyReadlines_flatten _ hlines2
  refine ⟨?_, ?_, ?_, ?_⟩
  · conv_lhs => rw [prepareEnvContent]
    rw [hround1]
    rw [upsert_fixpoint _ _ (pk_prefix_envLine_pk pkVal)
      (pk_prefix_envLine_amt amtVal) (amt_prefix_envLine_amt amtVal) _]
    rw [prepareEnvContent]
  · rw [hround2]
    exact filter_pk_upsert_single _ _ (pk_prefix_envLine_pk pkVal2)
      (pk_prefix_envLine_amt amtVal2) _ hcount1pk
  · rw [hround2]
    exact filter_amt_upsert_single _ _ (amt_prefix_envLine_pk pkVal2)
      (amt_prefix_envLine_amt amtVal2) _ hcount1amt
  · rw [hround1]
    exact filter_unrelated_upsert _ _ (pk_prefix_envLine_pk pkVal)
      (amt_prefix_envLine_amt amtVal) _

/-- C6 witness: starting from the newline-terminated one-line file X=1,
two writes with the same values leave the content identical to one
write. -/
theorem env_upsert_amended_witness :
    prepareEnvContent (prepareEnvContent ("X=1\n".data) ("k".data)
        ("10".data)) ("k".data) ("10".data) =
      prepareEnvContent ("X=1\n".data) ("k".data) ("10".data) :=
  (env_upsert_amended ("X=1\n".data) ("k".data) ("m".data) ("10".data)
    ("11".data) (by decide) (by decide) (by decide) (by decide) (by decide)
    (by decide) (by decide)).1

end HypeTools
